import Mathlib

/-!
Verification of the Newstack rendering engine (packages/framework/src):
a shallow embedding of the route matcher, the HTML renderer (`Renderer.html`),
the hydration snapshot transfer (`Renderer.addSnapshotStateData`), the DOM
patcher (`patchElement`), the proxy-based reactivity (`proxify`'s set trap and
`Renderer.updateComponent`), and the server/client lifecycle orderings
(`NewstackServer.template`, `NewstackClient.start`).

Conventions of the embedding:
  - JS strings are `String`, field values are `Int` (the claims only exercise
    numeric and string-shaped state; state maps are association lists in
    insertion order, as JS object keys are ordered by insertion).
  - Exceptions are `Except RErr`; a JS `TypeError` thrown by destructuring
    `undefined` is `RErr.typeError`.
  - Recursion through component `render` output is not structurally bounded in
    the source (a component may render itself); every tree traversal therefore
    carries a `fuel : Nat` that is spent on recursive steps, and exhaustion is
    the distinguished error `RErr.fuel`.  All functions are executable.
-/

namespace Newstack

/-- Split a character list on a separator (the `String.split` of JS, here on
characters so that every definition evaluates inside the kernel). -/
def splitOnChar (sep : Char) : List Char → List (List Char)
  | [] => [[]]
  | c :: rest =>
      let r := splitOnChar sep rest
      if c = sep then [] :: r
      else
        match r with
        | [] => [[c]]
        | seg :: segs => (c :: seg) :: segs

/-- `routePattern.split("/").filter(Boolean)`: '/'-delimited segments with
empty strings removed. -/
def splitSegs (s : String) : List String :=
  ((splitOnChar '/' s.data).map (fun cs => String.mk cs)).filter
    (fun seg => seg ≠ "")

/-- `segment.startsWith(":")`. -/
def startsColon (s : String) : Bool :=
  match s.data with
  | c :: _ => c = ':'
  | [] => false

/-- Route-parameter map (`context.params`), a JS object: string keys to string
values, insertion ordered. -/
abbrev Params := List (String × String)

/-- JS object property write `params[name] = v`: overwrite an existing key in
place, otherwise append. -/
def setParam (name v : String) : Params → Params
  | [] => [(name, v)]
  | (k, w) :: rest =>
      if k = name then (k, v) :: rest else (k, w) :: setParam name v rest

/-- First-match association lookup (JS property read). -/
def lookupParam (name : String) : Params → Option String
  | [] => none
  | (k, w) :: rest => if k = name then some w else lookupParam name rest

/-- The per-position check loop of `matchRoute`: for each position, a segment
starting with ':' always matches, any other must be equal. -/
def segsOk : List String → List String → Bool
  | [], [] => true
  | r :: rs, p :: ps =>
      (startsColon r || r == p) && segsOk rs ps
  | _, _ => false

/-- The `routeSegments.forEach` write-back phase of `matchRoute`: every
':'-segment binds its name to the path segment at the same index, walking
left to right. -/
def writeParams : List (String × String) → Params → Params
  | [], params => params
  | (r, p) :: rest, params =>
      writeParams rest
        (if startsColon r then setParam (r.drop 1) p params else params)

/-- `matchRoute(routePattern, context)` from renderer.ts: split both the
pattern and `context.router.path` into '/'-separated nonempty segments; differing
segment counts never match; the check loop runs before any parameter is
written; on success the ':'-bindings are written into `context.params` and
`true` is returned.  The context is passed as the `path`/`params` pieces it
reads and writes. -/
def matchRoute (routePattern : String) (path : String) (params : Params) :
    Bool × Params :=
  let routeSegments := splitSegs routePattern
  let pathSegments := splitSegs path
  if routeSegments.length ≠ pathSegments.length then (false, params)
  else if segsOk routeSegments pathSegments then
    (true, writeParams (routeSegments.zip pathSegments) params)
  else (false, params)

/-- The value bindings a name receives from a zipped (pattern, path) segment
list, in left-to-right order. -/
def bindingsOf (name : String) (l : List (String × String)) : List String :=
  (l.filter (fun q => startsColon q.1 && q.1.drop 1 == name)).map (·.2)

/-- Last element of a list, `none` when empty. -/
def lastVal? : List String → Option String
  | [] => none
  | [a] => some a
  | _ :: b :: rest => lastVal? (b :: rest)

/-! ## Node model and renderer state -/

/-- Attribute values (`AttrValue` in the spec): string, number, boolean, or an
event-handler function.  Function identity is irrelevant to the claims, so a
handler is the bare tag `fn`. -/
inductive Attr where
  | str (s : String)
  | num (n : Int)
  | boolean (b : Bool)
  | fn
deriving DecidableEq, Repr

/-- The virtual node (`VNode` in renderer.ts): a primitive (string or number),
a markup element `{type: tag, props: {…attributes, children}}`, or a component
placeholder `{type: ComponentClass}` referenced here by the class's build-time
fingerprint `hash`.  The `route` prop, when present, lives in `attrs` under the
key "route". -/
inductive VNode where
  | text (s : String)
  | int (n : Int)
  | elem (tag : String) (attrs : List (String × Attr)) (children : List VNode)
  | comp (hash : String) (attrs : List (String × Attr))
deriving Repr

/-- A parsed DOM node, the result of assigning markup to `innerHTML`:
an element with string-valued attributes, a text node, or a comment node. -/
inductive DNode where
  | text (s : String)
  | elem (tag : String) (attrs : List (String × String)) (children : List DNode)
  | comment
deriving Repr

/-- First-match association lookup over an attribute list. -/
def lookupAttr (name : String) : List (String × Attr) → Option Attr
  | [] => none
  | (k, v) :: rest => if k = name then some v else lookupAttr name rest

/-- JS object property write on an attribute map (overwrite in place or
append), used for `vnode.props["data-newstack"] = hash`. -/
def setAttrKey (name : String) (v : Attr) : List (String × Attr) →
    List (String × Attr)
  | [] => [(name, v)]
  | (k, w) :: rest =>
      if k = name then (k, v) :: rest else (k, w) :: setAttrKey name v rest

/-- `props?.route` as read by `Renderer.html`: the check `if (props?.route)` is
a JS truthiness test, so an absent key and the empty string both count as "no
route".  Route attributes are strings in this codebase. -/
def getRoute (attrs : List (String × Attr)) : Option String :=
  match lookupAttr "route" attrs with
  | some (Attr.str r) => if r = "" then none else some r
  | _ => none

/-- The attributes of a virtual node (`node.props` minus `children`). -/
def vnodeAttrs : VNode → List (String × Attr)
  | VNode.elem _ attrs _ => attrs
  | VNode.comp _ attrs => attrs
  | _ => []

/-- JS template interpolation of an attribute value. -/
def attrToString : Attr → String
  | Attr.str s => s
  | Attr.num n => toString n
  | Attr.boolean b => if b then "true" else "false"
  | Attr.fn => "function"

/-- Serialization of an attribute list, from `Renderer.html`: the keys
"route" and "children" are dropped (children are not in the list here),
function-valued props are dropped, the rest render as ` key="value"`. -/
def attrsString (attrs : List (String × Attr)) : String :=
  ((attrs.filter (fun kv => kv.1 ≠ "route")).filter
      (fun kv => kv.2 ≠ Attr.fn)).foldl
    (fun acc kv => acc ++ " " ++ kv.1 ++ "=\x22" ++ attrToString kv.2 ++ "\x22") ""

/-- The same filtered attributes as the parser sees them (string values). -/
def attrsDom (attrs : List (String × Attr)) : List (String × String) :=
  ((attrs.filter (fun kv => kv.1 ≠ "route")).filter
      (fun kv => kv.2 ≠ Attr.fn)).map (fun kv => (kv.1, attrToString kv.2))

/-- Normalize a parsed node list the way an HTML parser does: adjacent text
pieces merge into one text node and empty text vanishes. -/
def normDom : List DNode → List DNode
  | [] => []
  | DNode.text s :: rest =>
      match normDom rest with
      | DNode.text t :: rest' =>
          if s ++ t = "" then rest' else DNode.text (s ++ t) :: rest'
      | rest' => if s = "" then rest' else DNode.text s :: rest'
  | n :: rest => n :: normDom rest

/-- `firstElementChild`: the first element node, skipping text and comments. -/
def firstElem : List DNode → Option DNode
  | [] => none
  | DNode.elem tag attrs children :: _ => some (DNode.elem tag attrs children)
  | _ :: rest => firstElem rest

/-- A component's mutable instance: its class fingerprint plus its declared
state fields. -/
structure Inst where
  hash : String
  fields : List (String × Int)
deriving DecidableEq, Repr

/-- JS object property write on instance fields. -/
def setField (name : String) (v : Int) : List (String × Int) →
    List (String × Int)
  | [] => [(name, v)]
  | (k, w) :: rest =>
      if k = name then (k, v) :: rest else (k, w) :: setField name v rest

/-- First-match association lookup on instance fields. -/
def lookupField (name : String) : List (String × Int) → Option Int
  | [] => none
  | (k, w) :: rest => if k = name then some w else lookupField name rest

/-- The context pieces a `render(context)` implementation may read. -/
structure RCtx where
  path : String
  params : Params
deriving DecidableEq, Repr

/-- A component class (`typeof Newstack` with its build-assigned `hash`):
declared field defaults, the `render` body, and which optional lifecycle hooks
(`prepare`, `hydrate`, `update`, `destroy`) the class declares.  Every
component in this codebase declares `render`, so the renderer's
`isRenderableComponent` guard is always satisfied and `render` is total
here. -/
structure CompDef where
  defaults : List (String × Int)
  render : List (String × Int) → RCtx → VNode
  hasPrepare : Bool
  hasHydrate : Bool
  hasUpdate : Bool
  hasDestroy : Bool

/-- The component-definition environment: fingerprint to class. -/
abbrev Defs := String → CompDef

/-- How a registry entry's `reinitiate` closure was built.  `setupEntrypoint`
stores the same fresh instance it returns; `setupChildrenRecursively` calls
`createComponent()` twice, storing a different fresh instance than the one it
returns. -/
inductive ReinitKind where
  | entrypoint
  | child
deriving DecidableEq, Repr

/-- A registry entry (`Renderer.components` value): the stored instance,
held by reference into the instance heap, plus its `reinitiate` flavor. -/
structure Entry where
  ref : Nat
  kind : ReinitKind
deriving DecidableEq, Repr

def lookupEntry (h : String) : List (String × Entry) → Option Entry
  | [] => none
  | (k, e) :: rest => if k = h then some e else lookupEntry h rest

def setEntryRef (h : String) (r : Nat) : List (String × Entry) →
    List (String × Entry)
  | [] => []
  | (k, e) :: rest =>
      if k = h then (k, { e with ref := r }) :: rest
      else (k, e) :: setEntryRef h r rest

def setEntry (h : String) (e : Entry) : List (String × Entry) →
    List (String × Entry)
  | [] => [(h, e)]
  | (k, e') :: rest =>
      if k = h then (k, e) :: rest else (k, e') :: setEntry h e rest

/-- The hydration snapshot: fingerprint to `{state}` field map, as parsed from
the `script#__NEWSTACK_STATE__` tag. -/
abbrev Snapshot := List (String × List (String × Int))

def lookupSnap (h : String) : Snapshot → Option (List (String × Int))
  | [] => none
  | (k, st) :: rest => if k = h then some st else lookupSnap h rest

/-- Execution environment tag of the reactive context. -/
inductive Env where
  | server
  | client
deriving DecidableEq, Repr

/-- Observable lifecycle events.  Hook bodies are user code outside the
engine; the engine's calls into them are recorded as events. -/
inductive TEvent where
  | renderEv (hash : String)
  | prepareEv (hash : String)
  | hydrateEv (hash : String)
  | destroyEv (hash : String)
  | updateEv (hash : String)
  | patchEv (ref : Nat)
deriving DecidableEq, Repr

/-- Runtime failures: a JS `TypeError` (destructuring or dereferencing
`undefined`) or fuel exhaustion of the embedding. -/
inductive RErr where
  | typeError
  | fuel
deriving DecidableEq, Repr

/-- The renderer plus context state threaded through a render session:
`Renderer.components` / `componentElements` / `visibleHashes` / `lastVNode`,
the instance heap backing component references, the element heap backing
`componentElements`, the mounted root (`div#app`) contents, the context's
`path` / `params` / `environment`, the optional hydration snapshot script,
and the lifecycle event trace. -/
structure RSt where
  components : List (String × Entry)
  heap : List Inst
  domHeap : List DNode
  rootDom : List DNode
  componentElements : List (String × Nat)
  visibleHashes : List String
  params : Params
  path : String
  environment : Env
  lastVNode : Bool
  snapshot : Option Snapshot
  trace : List TEvent

def pushTrace (e : TEvent) (st : RSt) : RSt :=
  { st with trace := st.trace ++ [e] }

/-- Allocate a fresh proxified instance (`new (type)()`): the declared
defaults of the class. -/
def allocInst (i : Inst) (st : RSt) : Nat × RSt :=
  (st.heap.length, { st with heap := st.heap ++ [i] })

/-- Read an instance from the heap (a dangling reference never occurs in the
modelled flows; the default is inert). -/
def heapInst (st : RSt) (r : Nat) : Inst :=
  st.heap.getD r { hash := "", fields := [] }

/-- Write one field of the instance at `r`. -/
def heapSetField (r : Nat) (name : String) (v : Int) (st : RSt) : RSt :=
  let i := st.heap.getD r { hash := "", fields := [] }
  { st with heap := st.heap.set r { i with fields := setField name v i.fields } }

def lookupElemRef (h : String) : List (String × Nat) → Option Nat
  | [] => none
  | (k, r) :: rest => if k = h then some r else lookupElemRef h rest

/-- The context visible to `render`. -/
def ctxOf (st : RSt) : RCtx := { path := st.path, params := st.params }

/-- `this.visibleHashes.add(hash)` (a JS `Set`: no duplicates, insertion
order). -/
def addVisible (h : String) (st : RSt) : RSt :=
  if h ∈ st.visibleHashes then st
  else { st with visibleHashes := st.visibleHashes ++ [h] }

/-- `Renderer.addSnapshotStateData(component, states)`: reads the component's
class hash, destructures `const { state } = states[hash]` — a `TypeError`
when `states` has no entry for `hash` — and writes each snapshot field into
`this.components.get(hash).component`, i.e. into the instance stored in the
registry (not necessarily the one being rendered).  Those writes go through
the stored instance's proxy; during the only flow that reaches this code (the
first client traversal, `lastVNode` unset) `componentElements` has no entry
yet, so the proxy's `updateComponent` returns without rendering or patching
and only the `update` hook fires, which is recorded as an event. -/
def addSnapshotStateData (defs : Defs) (h : String) (states : Snapshot)
    (st : RSt) : Except RErr RSt :=
  match lookupSnap h states with
  | none => Except.error RErr.typeError
  | some state =>
      match lookupEntry h st.components with
      | none => Except.error RErr.typeError
      | some e =>
          Except.ok (state.foldl
            (fun st' kv =>
              let st'' := heapSetField e.ref kv.1 kv.2 st'
              if (defs h).hasUpdate then pushTrace (TEvent.updateEv h) st''
              else st'')
            st)

/-- The route guard at the top of `Renderer.html`: when a `route` prop is
present, `matchRoute` runs (also for the literal "*", whose result is then
ignored); the node is skipped unless the pattern is "*" or the match
succeeded. -/
def routeCheck (attrs : List (String × Attr)) (st : RSt) : Bool × RSt :=
  match getRoute attrs with
  | none => (true, st)
  | some r =>
      let m := matchRoute r st.path st.params
      ((r == "*") || m.1, { st with params := m.2 })

/-- One step of `reinitiate()` on the client: `setupEntrypoint`'s closure
builds one fresh instance, stores it and returns it; the
`setupChildrenRecursively` closure builds a fresh instance `c`, then stores a
second, distinct fresh instance in the registry, and returns `c`.  Returns the
reference the caller renders from. -/
def reinitiate (defs : Defs) (h : String) (e : Entry) (st : RSt) : Nat × RSt :=
  match e.kind with
  | ReinitKind.entrypoint =>
      let (r, st) := allocInst { hash := h, fields := (defs h).defaults } st
      (r, { st with components := setEntryRef h r st.components })
  | ReinitKind.child =>
      let (r1, st) := allocInst { hash := h, fields := (defs h).defaults } st
      let (r2, st) := allocInst { hash := h, fields := (defs h).defaults } st
      (r1, { st with components := setEntryRef h r2 st.components })

/-- `props.children.map((c) => this.html(c)).join("")`: render the children in
order, concatenating markup (and the corresponding parsed nodes); a thrown
error aborts the remaining children and propagates, keeping the state mutations
made so far. -/
def runChildren (f : VNode → RSt → (Except RErr (String × List DNode)) × RSt) :
    List VNode → RSt → (Except RErr (String × List DNode)) × RSt
  | [], st => (Except.ok ("", []), st)
  | c :: cs, st =>
      match f c st with
      | (Except.error e, st') => (Except.error e, st')
      | (Except.ok (s, ns), st') =>
          match runChildren f cs st' with
          | (Except.error e, st'') => (Except.error e, st'')
          | (Except.ok (s', ns'), st'') =>
              (Except.ok (s ++ s', ns ++ ns'), st'')

/-- `Renderer.html(node)` (the current renderer.ts): primitives stringify;
a node whose `route` prop is present, is not the literal "*" and does not
match the current path serializes to the placeholder comment "<!---->";
a component node resolves its registry entry (`this.components.get(hash)`,
whose destructuring throws when the fingerprint was never registered), on the
client replaces the instance through `reinitiate()` and, on the first client
traversal (`lastVNode` unset) with a `#__NEWSTACK_STATE__` script present,
applies the snapshot via `addSnapshotStateData`; the component is added to
`visibleHashes`, its `render(context)` output is stamped with the
`data-newstack` fingerprint on the client (a `TypeError` when the output is a
primitive, which has no `props`) and recursively rendered.  Plain elements
serialize their filtered attributes and children.  Alongside the markup string
the function returns the node list that markup parses to (what assigning it to
`innerHTML` would build), with adjacent texts merged.  `fuel` bounds recursion
through `render` output, which the source does not bound. -/
def html (defs : Defs) :
    Nat → VNode → RSt → (Except RErr (String × List DNode)) × RSt
  | 0, _, st => (Except.error RErr.fuel, st)
  | _ + 1, VNode.text s, st =>
      (Except.ok (s, if s = "" then [] else [DNode.text s]), st)
  | _ + 1, VNode.int n, st =>
      (Except.ok (toString n, [DNode.text (toString n)]), st)
  | fuel + 1, VNode.elem tag attrs children, st =>
      let (go, st) := routeCheck attrs st
      if go = false then (Except.ok ("<!---->", [DNode.comment]), st)
      else
        match runChildren (fun c st' => html defs fuel c st') children st with
        | (Except.error e, st') => (Except.error e, st')
        | (Except.ok (s, ns), st') =>
            (Except.ok ("<" ++ tag ++ attrsString attrs ++ ">" ++ s ++
                "</" ++ tag ++ ">",
              [DNode.elem tag (attrsDom attrs) (normDom ns)]), st')
  | fuel + 1, VNode.comp h attrs, st =>
      let (go, st) := routeCheck attrs st
      if go = false then (Except.ok ("<!---->", [DNode.comment]), st)
      else
        match lookupEntry h st.components with
        | none => (Except.error RErr.typeError, st)
        | some e =>
            let (localRef, st) :=
              if st.environment = Env.client then reinitiate defs h e st
              else (e.ref, st)
            let snapStep : Except RErr RSt :=
              if st.environment = Env.client ∧ st.lastVNode = false then
                match st.snapshot with
                | none => Except.ok st
                | some states => addSnapshotStateData defs h states st
              else Except.ok st
            match snapStep with
            | Except.error er => (Except.error er, st)
            | Except.ok st' =>
                let st2 := addVisible h st'
                let v0 := (defs h).render (heapInst st2 localRef).fields
                    (ctxOf st2)
                let st3 := pushTrace (TEvent.renderEv h) st2
                if st3.environment = Env.client then
                  match v0 with
                  | VNode.elem tag a cs =>
                      html defs fuel
                        (VNode.elem tag (setAttrKey "data-newstack"
                          (Attr.str h) a) cs) st3
                  | VNode.comp h' a =>
                      html defs fuel
                        (VNode.comp h' (setAttrKey "data-newstack"
                          (Attr.str h) a)) st3
                  | _ => (Except.error RErr.typeError, st3)
                else html defs fuel v0 st3

/-! ## DOM patching (`patchElement`) -/

/-- DOM writes issued while patching, with the path (child-index trail from
the patch root) of the touched node.  Attribute and text writes are the ones
the patch-minimality claims quantify over; structural writes and handler
(re)bindings are recorded for completeness. -/
inductive DomOp where
  | removeAttr (path : List Nat) (name : String)
  | setAttr (path : List Nat) (name : String) (value : String)
  | setText (path : List Nat) (s : String)
  | appendChild (path : List Nat)
  | removeChild (path : List Nat)
  | replaceChild (path : List Nat)
  | bindHandler (path : List Nat) (name : String)
deriving DecidableEq, Repr

def shiftOp (i : Nat) : DomOp → DomOp
  | DomOp.removeAttr p name => DomOp.removeAttr (i :: p) name
  | DomOp.setAttr p name v => DomOp.setAttr (i :: p) name v
  | DomOp.setText p s => DomOp.setText (i :: p) s
  | DomOp.appendChild p => DomOp.appendChild (i :: p)
  | DomOp.removeChild p => DomOp.removeChild (i :: p)
  | DomOp.replaceChild p => DomOp.replaceChild (i :: p)
  | DomOp.bindHandler p name => DomOp.bindHandler (i :: p) name

def lookupStr (name : String) : List (String × String) → Option String
  | [] => none
  | (k, v) :: rest => if k = name then some v else lookupStr name rest

/-- The node a DOM write targets, as a child-index trail from the patch
root. -/
def opPath : DomOp → List Nat
  | DomOp.removeAttr p _ => p
  | DomOp.setAttr p _ _ => p
  | DomOp.setText p _ => p
  | DomOp.appendChild p => p
  | DomOp.removeChild p => p
  | DomOp.replaceChild p => p
  | DomOp.bindHandler p _ => p

/-- `Node.nodeType`. -/
def nodeType : DNode → Nat
  | DNode.text _ => 3
  | DNode.elem _ _ _ => 1
  | DNode.comment => 8

/-- The attribute sync of `patchElement` leaves the old element with: every
old attribute that still exists on the new element, updated to the new value
when it differed, plus the new element's attributes the old one lacked. -/
def patchedAttrs (oattrs nattrs : List (String × String)) :
    List (String × String) :=
  (oattrs.filter (fun kv => (lookupStr kv.1 nattrs).isSome)).map
      (fun kv => (kv.1, (lookupStr kv.1 nattrs).getD kv.2))
    ++ nattrs.filter (fun kv => (lookupStr kv.1 oattrs).isNone)

/-- `vnodeChildren`: the virtual children aligned positionally with the DOM
children during the patch loop. -/
def vnodeKids : Option VNode → List (Option VNode)
  | some (VNode.elem _ _ cs) => cs.map some
  | _ => []

/-- Trailing `newChildren` with no old counterpart: each is appended as a deep
clone. -/
def appendOps (i : Nat) : List DNode → List DNode × List DomOp
  | [] => ([], [])
  | n :: ns =>
      let (nodes, ops) := appendOps (i + 1) ns
      (n :: nodes, DomOp.appendChild [i] :: ops)

/-- Trailing `oldChildren` with no new counterpart: each is removed. -/
def removeOps (i : Nat) : List DNode → List DomOp
  | [] => []
  | _ :: os => DomOp.removeChild [i] :: removeOps (i + 1) os

/-- One position of the child loop of `patchElement`, parameterized by the
recursive patch (`f`): differing node kinds replace wholesale; two text nodes
rewrite the text only when the contents differ; two elements with the same tag
recurse; anything else replaces wholesale. -/
def patchPairF (f : DNode → DNode → Option VNode → Option (DNode × List DomOp))
    (i : Nat) (o n : DNode) (v : Option VNode) : Option (DNode × List DomOp) :=
  if nodeType o ≠ nodeType n then some (n, [DomOp.replaceChild [i]])
  else
    match o, n with
    | DNode.text s, DNode.text t =>
        if s ≠ t then some (DNode.text t, [DomOp.setText [i] t])
        else some (DNode.text s, [])
    | DNode.elem otag oa oc, DNode.elem ntag na nc =>
        if otag = ntag then
          (f (DNode.elem otag oa oc) (DNode.elem ntag na nc) v).map
            (fun r => (r.1, r.2.map (shiftOp i)))
        else some (DNode.elem ntag na nc, [DomOp.replaceChild [i]])
    | _, n' => some (n', [DomOp.replaceChild [i]])

/-- The lock-step child walk of `patchElement` up to the longer child list. -/
def patchKidsF (f : DNode → DNode → Option VNode → Option (DNode × List DomOp)) :
    Nat → List DNode → List DNode → List (Option VNode) →
    Option (List DNode × List DomOp)
  | i, [], news, _ => some (appendOps i news)
  | i, olds, [], _ => some ([], removeOps i olds)
  | i, o :: os, n :: ns, vs =>
      match patchPairF f i o n (vs.headD none) with
      | none => none
      | some (d, ops) =>
          match patchKidsF f (i + 1) os ns vs.tail with
          | none => none
          | some (ds, ops') => some (d :: ds, ops ++ ops')

/-- `patchElement(oldEl, newEl, vnode, update)`: remove old attributes absent
from the new element, set new attributes whose value differs, (re)bind the
virtual node's "on*" handler props as element properties (wrapped so firing
one re-enters the update path — the wrapping itself issues no DOM write), and
walk the child lists in lock-step.  Returns the patched element and the DOM
writes issued, or `none` when `fuel` runs out (the source recursion is bounded
by the tree depth). -/
def patchElement : Nat → DNode → DNode → Option VNode →
    Option (DNode × List DomOp)
  | 0, _, _, _ => none
  | fuel + 1, oldEl, newEl, vnode =>
      match oldEl, newEl with
      | DNode.elem otag oattrs ochildren, DNode.elem _ nattrs nchildren =>
          let removals := (oattrs.filter
              (fun kv => (lookupStr kv.1 nattrs).isNone)).map
            (fun kv => DomOp.removeAttr [] kv.1)
          let sets := (nattrs.filter
              (fun kv => lookupStr kv.1 oattrs ≠ some kv.2)).map
            (fun kv => DomOp.setAttr [] kv.1 kv.2)
          let binds :=
            match vnode with
            | some v => ((vnodeAttrs v).filter
                (fun kv => kv.1.startsWith "on" && kv.2 = Attr.fn)).map
                (fun kv => DomOp.bindHandler [] kv.1)
            | none => []
          match patchKidsF (fun o n vv => patchElement fuel o n vv) 0
              ochildren nchildren (vnodeKids vnode) with
          | none => none
          | some (kids, kidOps) =>
              some (DNode.elem otag (patchedAttrs oattrs nattrs) kids,
                removals ++ sets ++ binds ++ kidOps)
      | _, _ => some (oldEl, [])

/-! ## Reactivity: `Renderer.updateComponent` and `proxify`'s set trap -/

/-- `Renderer.updateComponent(component)`: a no-op on the server (`document`
is undefined); otherwise looks the component's element up by its class hash in
`componentElements` (a silent no-op when absent), re-renders the component,
lowers the result through `html`, parses it (`temp.innerHTML`), takes
`firstElementChild` (a silent no-op when the markup has no element), and
issues one `patchElement` call against the component's own mounted element,
patching it in place. -/
def updateComponent (defs : Defs) (fuel : Nat) (r : Nat) (st : RSt) :
    Except RErr Unit × RSt :=
  if st.environment = Env.server then (Except.ok (), st)
  else
    let h := (heapInst st r).hash
    match lookupElemRef h st.componentElements with
    | none => (Except.ok (), st)
    | some cref =>
        let vnode := (defs h).render (heapInst st r).fields (ctxOf st)
        let st := pushTrace (TEvent.renderEv h) st
        match html defs fuel vnode st with
        | (Except.error e, st') => (Except.error e, st')
        | (Except.ok (_, ns), st') =>
            match firstElem (normDom ns) with
            | none => (Except.ok (), st')
            | some newEl =>
                let container := st'.domHeap.getD cref (DNode.elem "div" [] [])
                match patchElement fuel container newEl (some vnode) with
                | none => (Except.error RErr.fuel, st')
                | some (patched, _ops) =>
                    (Except.ok (),
                      pushTrace (TEvent.patchEv cref)
                        { st' with domHeap := st'.domHeap.set cref patched })

/-- The `set` trap of `proxify`: store the value on the underlying instance
(`target[key] = value`), then `renderer.updateComponent(target)`, then
`target.update?.(renderer.context)`. -/
def proxySet (defs : Defs) (fuel : Nat) (r : Nat) (key : String) (value : Int)
    (st : RSt) : Except RErr Unit × RSt :=
  let st := heapSetField r key value st
  match updateComponent defs fuel r st with
  | (Except.error e, st') => (Except.error e, st')
  | (Except.ok _, st') =>
      let h := (heapInst st' r).hash
      if (defs h).hasUpdate then
        (Except.ok (), pushTrace (TEvent.updateEv h) st')
      else (Except.ok (), st')

/-! ## Server request path (`NewstackServer.template`) -/

/-- `NewstackServer.template()` for one GET request, after the route handler
has set `context.router.path` and re-marked visibility: first
`this.app.render(context)`, then `this.renderer.html(element)`, and only then
`await this.prepare()`.  In the current server.ts the only registry entry
whose value carries `visible: true` is the application instance the route
handler just stored, so the prepare loop awaits exactly the app's `prepare`
hook (when declared) — after the whole tree has been rendered. -/
def template (defs : Defs) (appHash : String)
    (appFields : List (String × Int)) (fuel : Nat) (st : RSt) :
    Except RErr String × RSt :=
  let element := (defs appHash).render appFields (ctxOf st)
  let st := pushTrace (TEvent.renderEv appHash) st
  match html defs fuel element st with
  | (Except.error e, st') => (Except.error e, st')
  | (Except.ok (page, _), st') =>
      let st'' :=
        if (defs appHash).hasPrepare then
          pushTrace (TEvent.prepareEv appHash) st'
        else st'
      (Except.ok page, st'')

/-! ## Client bootstrap (`NewstackClient.start` and friends) -/

/-- `setupChildrenRecursively`'s inner `loop`: a component node allocates a
fresh instance via `createComponent()`, registers it under its hash together
with the double-allocating `reinitiate` closure, and recurses into its
`render` output; element children are looped in order; primitives stop. -/
def setupLoop (defs : Defs) : Nat → VNode → RSt → RSt
  | 0, _, st => st
  | _ + 1, VNode.text _, st => st
  | _ + 1, VNode.int _, st => st
  | fuel + 1, VNode.elem _ _ children, st =>
      children.foldl (fun acc c => setupLoop defs fuel c acc) st
  | fuel + 1, VNode.comp h _, st =>
      let (r, st) := allocInst { hash := h, fields := (defs h).defaults } st
      let e : Entry := { ref := r, kind := ReinitKind.child }
      let st := { st with components := setEntry h e st.components }
      let v := (defs h).render (defs h).defaults (ctxOf st)
      let st := pushTrace (TEvent.renderEv h) st
      setupLoop defs fuel v st

/-- `setupDefaultVisibleHashes`: adds the hash of every component node that is
syntactically present in the entrypoint's rendered tree (it does not descend
into the components' own render output). -/
def setupVisible : Nat → VNode → RSt → RSt
  | 0, _, st => st
  | _ + 1, VNode.comp h _, st => addVisible h st
  | fuel + 1, VNode.elem _ _ children, st =>
      children.foldl (fun acc c => setupVisible fuel c acc) st
  | _ + 1, _, st => st

/-- `Renderer.setupAllComponents(entrypoint)`: registers the (proxified)
entrypoint instance under its hash with a store-and-return `reinitiate`,
renders the entrypoint, registers its reachable children, and records the
default visible hashes. -/
def setupAllComponents (defs : Defs) (appHash : String)
    (appFields : List (String × Int)) (fuel : Nat) (st : RSt) : RSt :=
  let (r, st) := allocInst { hash := appHash, fields := appFields } st
  let e : Entry := { ref := r, kind := ReinitKind.entrypoint }
  let st := { st with components := setEntry appHash e st.components }
  let v := (defs appHash).render appFields (ctxOf st)
  let st := pushTrace (TEvent.renderEv appHash) st
  let st := setupLoop defs fuel v st
  setupVisible fuel v st

/-- `NewstackClient.routeComponents()`: the registered components other than
the entrypoint whose hash is currently visible, in registry insertion order,
as (hash, stored instance reference) pairs. -/
def routeComponents (appHash : String) (st : RSt) : List (String × Nat) :=
  (st.components.filter
      (fun ke => ke.1 ≠ appHash && st.visibleHashes.contains ke.1)).map
    (fun ke => (ke.1, ke.2.ref))

/-- `NewstackClient.destroyComponents()`: call `destroy` on every visible
non-entrypoint component, then clear the visible set. -/
def destroyComponents (defs : Defs) (appHash : String) (st : RSt) : RSt :=
  let st := (routeComponents appHash st).foldl
    (fun acc hr =>
      if (defs hr.1).hasDestroy then pushTrace (TEvent.destroyEv hr.1) acc
      else acc)
    st
  { st with visibleHashes := [] }

/-- `NewstackClient.startComponents()`: `prepare?.()` then `hydrate?.()` on
every visible non-entrypoint component, in order (neither is awaited). -/
def startComponents (defs : Defs) (appHash : String) (st : RSt) : RSt :=
  (routeComponents appHash st).foldl
    (fun acc hr =>
      let acc :=
        if (defs hr.1).hasPrepare then pushTrace (TEvent.prepareEv hr.1) acc
        else acc
      if (defs hr.1).hasHydrate then pushTrace (TEvent.hydrateEv hr.1) acc
      else acc)
    st

def removeAttrStr (name : String) (l : List (String × String)) :
    List (String × String) :=
  l.filter (fun kv => kv.1 ≠ name)

/-- `root.querySelector` on the attribute selector is modelled directly: depth-first, document-order
search for the first element carrying `data-newstack == h`; the match has the
marker attribute removed both on the returned element and in the tree
(`element.removeAttribute`). -/
def extractStamp (h : String) : Nat → List DNode →
    Option (DNode × List DNode)
  | 0, _ => none
  | _ + 1, [] => none
  | fuel + 1, DNode.elem tag attrs children :: rest =>
      if lookupStr "data-newstack" attrs = some h then
        let el := DNode.elem tag (removeAttrStr "data-newstack" attrs) children
        some (el, el :: rest)
      else
        match extractStamp h fuel children with
        | some (el, children') =>
            some (el, DNode.elem tag attrs children' :: rest)
        | none =>
            match extractStamp h fuel rest with
            | some (el, rest') =>
                some (el, DNode.elem tag attrs children :: rest')
            | none => none
  | fuel + 1, n :: rest =>
      match extractStamp h fuel rest with
      | some (el, rest') => some (el, n :: rest')
      | none => none

def setElemRef (h : String) (r : Nat) : List (String × Nat) →
    List (String × Nat)
  | [] => [(h, r)]
  | (k, v) :: rest =>
      if k = h then (k, r) :: rest else (k, v) :: setElemRef h r rest

/-- `NewstackClient.assignElements()`: for each visible component, locate its
stamped element in the mounted tree (skip silently when absent), strip the
marker, record the element in `componentElements`, and run `updateComponent`
on the stored instance.  The located element is copied into the element heap;
in the browser it stays aliased inside the root — the difference is invisible
to the events and claims modelled here. -/
def assignList (defs : Defs) (fuel : Nat) : List (String × Nat) → RSt →
    Except RErr Unit × RSt
  | [], st => (Except.ok (), st)
  | hr :: rest, st =>
      match extractStamp hr.1 fuel st.rootDom with
      | none => assignList defs fuel rest st
      | some (el, root') =>
          let cref := st.domHeap.length
          let newCE := setElemRef hr.1 cref st.componentElements
          let st := { st with rootDom := root', domHeap := st.domHeap ++ [el], componentElements := newCE }
          match updateComponent defs fuel hr.2 st with
          | (Except.error e, st') => (Except.error e, st')
          | (Except.ok _, st') => assignList defs fuel rest st'

/-- Replace the first element node of the root's child list (the pairing of
`container.firstElementChild` with the patched result). -/
def replaceFirstElem (patched : DNode) : List DNode → List DNode
  | [] => []
  | DNode.elem _ _ _ :: rest => patched :: rest
  | n :: rest => n :: replaceFirstElem patched rest

/-- `Renderer.patchRoute(newVNode, container)`: on the first call
(`lastVNode` unset) assign `container.innerHTML` wholesale; afterwards render
to a detached element and `patchElement` the container's first element child
against it (silently skipping when either side has no element); `lastVNode` is
set in both cases. -/
def patchRoute (defs : Defs) (fuel : Nat) (v : VNode) (st : RSt) :
    Except RErr Unit × RSt :=
  match html defs fuel v st with
  | (Except.error e, st') => (Except.error e, st')
  | (Except.ok (_, ns), st') =>
      if st.lastVNode = false then
        (Except.ok (), { st' with rootDom := normDom ns, lastVNode := true })
      else
        match firstElem (normDom ns), firstElem st'.rootDom with
        | some newEl, some oldEl =>
            match patchElement fuel oldEl newEl (some v) with
            | none => (Except.error RErr.fuel, st')
            | some (patched, _) =>
                (Except.ok (), { st' with
                  rootDom := replaceFirstElem patched st'.rootDom,
                  lastVNode := true })
        | _, _ => (Except.ok (), { st' with lastVNode := true })

/-- `NewstackClient.renderRoute(href)`: set the context path, destroy the
outgoing visible components, render the app, patch the route into the root,
assign elements, patch links (pure event wiring, unobserved here), and start
the now-visible components. -/
def renderRoute (defs : Defs) (appHash : String)
    (appFields : List (String × Int)) (fuel : Nat) (href : String) (st : RSt) :
    Except RErr Unit × RSt :=
  let st := { st with path := href }
  let st := destroyComponents defs appHash st
  let v := (defs appHash).render appFields (ctxOf st)
  let st := pushTrace (TEvent.renderEv appHash) st
  match patchRoute defs fuel v st with
  | (Except.error e, st') => (Except.error e, st')
  | (Except.ok _, st') =>
      match assignList defs fuel (routeComponents appHash st') st' with
      | (Except.error e, st'') => (Except.error e, st'')
      | (Except.ok _, st'') => (Except.ok (), startComponents defs appHash st'')

/-- `NewstackClient.start(app)`: `setupAllComponents`, then
`this.app.prepare?.()` (not awaited), then `renderRoute(location.pathname)`,
then `this.app.hydrate?.()`. -/
def start (defs : Defs) (appHash : String) (appFields : List (String × Int))
    (fuel : Nat) (st : RSt) : Except RErr Unit × RSt :=
  let st := setupAllComponents defs appHash appFields fuel st
  let st :=
    if (defs appHash).hasPrepare then pushTrace (TEvent.prepareEv appHash) st
    else st
  match renderRoute defs appHash appFields fuel st.path st with
  | (Except.error e, st') => (Except.error e, st')
  | (Except.ok _, st') =>
      (Except.ok (),
        if (defs appHash).hasHydrate then
          pushTrace (TEvent.hydrateEv appHash) st'
        else st')

/-! ## Trace predicates -/

def isRenderEv : TEvent → Bool
  | TEvent.renderEv _ => true
  | _ => false

/-- The ordering the spec asserts: walking the trace left to right, every
`render` call must already have seen that component's completed `prepare`. -/
def prepareBeforeRender : List TEvent → List String → Bool
  | [], _ => true
  | TEvent.prepareEv h :: rest, seen => prepareBeforeRender rest (h :: seen)
  | TEvent.renderEv h :: rest, seen =>
      seen.contains h && prepareBeforeRender rest seen
  | _ :: rest, seen => prepareBeforeRender rest seen

/-- The ordering the code actually enforces: every `prepare` call happens
after that component's `render` has already been invoked. -/
def renderBeforePrepare : List TEvent → List String → Bool
  | [], _ => true
  | TEvent.renderEv h :: rest, seen => renderBeforePrepare rest (h :: seen)
  | TEvent.prepareEv h :: rest, seen =>
      seen.contains h && renderBeforePrepare rest seen
  | _ :: rest, seen => renderBeforePrepare rest seen

/-! ## Concrete fixtures

Small concrete component environments and states, used by the closed
evaluations below.  They correspond to the scenarios named in the spec's
testable properties. -/

/-- A component class with no optional hooks and a trivial render. -/
def noHooks : CompDef :=
  { defaults := []
    render := fun _ _ => VNode.text ""
    hasPrepare := false
    hasHydrate := false
    hasUpdate := false
    hasDestroy := false }

/-- A fresh render-session state: nothing registered, nothing mounted,
server environment, path "/". -/
def emptySt : RSt :=
  { components := []
    heap := []
    domHeap := []
    rootDom := []
    componentElements := []
    visibleHashes := []
    params := []
    path := "/"
    environment := Env.server
    lastVNode := false
    snapshot := none
    trace := [] }

/-- The hydration scenario of the spec: a component with fingerprint
"abc123" whose declared default is `count = 0` and whose render shows the
count. -/
def defsHy : Defs := fun h =>
  if h = "abc123" then
    { noHooks with
      defaults := [("count", 0)]
      render := fun f _ =>
        VNode.elem "div" [] [VNode.int ((lookupField "count" f).getD 0)] }
  else noHooks

/-- Client state at the first traversal: "abc123" registered as a child
entry whose stored instance (heap slot 0) carries the defaults, and a
snapshot script mapping "abc123" to `{ state: { count: 5 } }`. -/
def stHy : RSt :=
  { emptySt with
    environment := Env.client
    components := [("abc123", { ref := 0, kind := ReinitKind.child })]
    heap := [{ hash := "abc123", fields := [("count", 0)] }]
    snapshot := some [("abc123", [("count", 5)])] }

/-- Lifecycle scenario: an entrypoint "app" rendering one child component
"child", both declaring `prepare` and `hydrate`. -/
def defsLife : Defs := fun h =>
  if h = "app" then
    { noHooks with
      hasPrepare := true
      hasHydrate := true
      render := fun _ _ => VNode.elem "div" [] [VNode.comp "child" []] }
  else if h = "child" then
    { noHooks with
      hasPrepare := true
      hasHydrate := true
      render := fun _ _ => VNode.elem "p" [] [VNode.text "hi"] }
  else noHooks

/-- Server-side app for the request path: `prepare` declared, renders a plain
element tree. -/
def defsApp : Defs := fun h =>
  if h = "app" then
    { noHooks with
      hasPrepare := true
      render := fun _ _ => VNode.elem "div" [] [VNode.text "hi"] }
  else noHooks

/-- A fresh client session state. -/
def stClient : RSt := { emptySt with environment := Env.client }

/-- Reactivity scenario: a hydrated counter component with an `update` hook,
mounted at element heap slot 0. -/
def defsCnt : Defs := fun h =>
  if h = "cnt" then
    { noHooks with
      hasUpdate := true
      render := fun f _ =>
        VNode.elem "div" [] [VNode.int ((lookupField "count" f).getD 0)] }
  else noHooks

/-- Client state after hydration for the counter: registered, mounted, first
traversal done (`lastVNode` set). -/
def stCnt : RSt :=
  { emptySt with
    environment := Env.client
    components := [("cnt", { ref := 0, kind := ReinitKind.child })]
    heap := [{ hash := "cnt", fields := [("count", 0)] }]
    componentElements := [("cnt", 0)]
    domHeap := [DNode.elem "div" [] [DNode.text "0"]]
    lastVNode := true }

/-! ## Route matcher lemmas -/

theorem segsOk_iff (rs ps : List String) (h : rs.length = ps.length) :
    segsOk rs ps = true ↔
      ∀ q ∈ rs.zip ps, startsColon q.1 = true ∨ q.1 = q.2 := by
  induction rs generalizing ps with
  | nil =>
    cases ps with
    | nil => simp [segsOk]
    | cons b bs => simp at h
  | cons a as ih =>
    cases ps with
    | nil => simp at h
    | cons b bs =>
      simp only [List.length_cons, Nat.succ.injEq] at h
      simp only [segsOk, List.zip_cons_cons, List.mem_cons, Bool.and_eq_true,
        Bool.or_eq_true, beq_iff_eq]
      rw [ih bs h]
      constructor
      · rintro ⟨h1, h2⟩ q hq
        rcases hq with rfl | hq
        · exact h1
        · exact h2 q hq
      · intro hall
        exact ⟨hall (a, b) (Or.inl rfl), fun q hq => hall q (Or.inr hq)⟩

theorem matchRoute_fail_snd (pattern path : String) (params : Params)
    (h : (matchRoute pattern path params).1 = false) :
    (matchRoute pattern path params).2 = params := by
  by_cases h1 : (splitSegs pattern).length ≠ (splitSegs path).length
  · simp [matchRoute, h1]
  · by_cases h2 : segsOk (splitSegs pattern) (splitSegs path) = true
    · exfalso
      simp [matchRoute, h1, h2] at h
    · simp only [Bool.not_eq_true] at h2
      simp [matchRoute, h1, h2]

theorem matchRoute_success_snd (pattern path : String) (params : Params)
    (h : (matchRoute pattern path params).1 = true) :
    (matchRoute pattern path params).2 =
      writeParams ((splitSegs pattern).zip (splitSegs path)) params := by
  by_cases h1 : (splitSegs pattern).length ≠ (splitSegs path).length
  · exfalso
    simp [matchRoute, h1] at h
  · by_cases h2 : segsOk (splitSegs pattern) (splitSegs path) = true
    · simp [matchRoute, h1, h2]
    · exfalso
      simp only [Bool.not_eq_true] at h2
      simp [matchRoute, h1, h2] at h

theorem lookupParam_setParam_self (n v : String) (ps : Params) :
    lookupParam n (setParam n v ps) = some v := by
  induction ps with
  | nil => simp [setParam, lookupParam]
  | cons kv rest ih =>
    obtain ⟨k, w⟩ := kv
    by_cases hk : k = n
    · simp [setParam, lookupParam, hk]
    · simp [setParam, lookupParam, hk, ih]

theorem lookupParam_setParam_ne (m n v : String) (ps : Params) (h : m ≠ n) :
    lookupParam n (setParam m v ps) = lookupParam n ps := by
  induction ps with
  | nil => simp [setParam, lookupParam, Ne.symm h, h]
  | cons kv rest ih =>
    obtain ⟨k, w⟩ := kv
    by_cases hk : k = m
    · subst hk
      simp [setParam, lookupParam, h, Ne.symm h]
    · by_cases hn : k = n
      · simp [setParam, lookupParam, hk, hn, Ne.symm h]
      · simp [setParam, lookupParam, hk, hn, ih]

theorem lastVal?_eq_none_iff (l : List String) :
    lastVal? l = none ↔ l = [] := by
  induction l with
  | nil => simp [lastVal?]
  | cons a rest ih =>
    cases rest with
    | nil => simp [lastVal?]
    | cons b rest' =>
      simp only [lastVal?]
      simp only [ih]
      simp

theorem lastVal?_cons_ne (a : String) (l : List String) (h : l ≠ []) :
    lastVal? (a :: l) = lastVal? l := by
  cases l with
  | nil => exact absurd rfl h
  | cons b rest => rfl

theorem bindingsOf_cons (n : String) (r p : String)
    (rest : List (String × String)) :
    bindingsOf n ((r, p) :: rest) =
      if startsColon r && r.drop 1 == n then p :: bindingsOf n rest
      else bindingsOf n rest := by
  by_cases h : (startsColon r && r.drop 1 == n) = true
  · simp [bindingsOf, h]
  · simp [bindingsOf, h]

theorem writeParams_lookup (l : List (String × String)) (params : Params)
    (n : String) :
    lookupParam n (writeParams l params) =
      (lastVal? (bindingsOf n l)).elim (lookupParam n params) some := by
  induction l generalizing params with
  | nil => simp [writeParams, bindingsOf, lastVal?, Option.elim]
  | cons rp rest ih =>
    obtain ⟨r, p⟩ := rp
    rw [bindingsOf_cons]
    by_cases hb : (startsColon r && r.drop 1 == n) = true
    · have hb' : startsColon r = true ∧ (r.drop 1 == n) = true := by
        simpa using hb
      have hcolon : startsColon r = true := hb'.1
      have hname : r.drop 1 = n := beq_iff_eq.mp hb'.2
      simp only [hb, if_pos]
      by_cases hrest : bindingsOf n rest = []
      · rw [hrest]
        have hlast : lastVal? [p] = some p := rfl
        rw [hlast]
        simp only [Option.elim]
        rw [writeParams, ih]
        rw [hrest]
        simp only [lastVal?, Option.elim]
        rw [hcolon]
        simp only [if_pos]
        rw [hname, lookupParam_setParam_self]
      · rw [lastVal?_cons_ne p _ hrest]
        rw [writeParams, ih]
        rcases ho : lastVal? (bindingsOf n rest) with _ | v
        · exact absurd ((lastVal?_eq_none_iff _).mp ho) hrest
        · simp [Option.elim]
    · simp only [hb, if_neg, Bool.not_eq_true]
      rw [writeParams, ih]
      by_cases hcolon : startsColon r = true
      · have hname : r.drop 1 ≠ n := by
          intro hcon
          apply hb
          simp [hcolon, hcon]
        rw [hcolon]
        simp only [if_pos]
        rw [lookupParam_setParam_ne _ _ _ _ hname]
      · simp only [Bool.not_eq_true] at hcolon
        rw [hcolon]
        simp

/-! ## Claim theorems: route matching -/

/-- C3.  `matchRoute` splits pattern and current path into '/'-delimited
segment lists with empty strings removed; it returns `false` whenever the
segment counts differ (the right-hand side then fails its first conjunct),
and otherwise returns `true` exactly when every position pairs a
':'-prefixed pattern segment (binding unconditionally) or two string-equal
segments. -/
theorem matchRoute_matches_iff (pattern path : String) (params : Params) :
    (matchRoute pattern path params).1 = true ↔
      (splitSegs pattern).length = (splitSegs path).length ∧
        ∀ q ∈ (splitSegs pattern).zip (splitSegs path),
          startsColon q.1 = true ∨ q.1 = q.2 := by
  by_cases h1 : (splitSegs pattern).length = (splitSegs path).length
  · have hfst : (matchRoute pattern path params).1 =
        segsOk (splitSegs pattern) (splitSegs path) := by
      by_cases h2 : segsOk (splitSegs pattern) (splitSegs path) = true
      · simp [matchRoute, h1, h2]
      · simp only [Bool.not_eq_true] at h2
        simp [matchRoute, h1, h2]
    rw [hfst, segsOk_iff _ _ h1]
    exact ⟨fun ha => ⟨h1, ha⟩, fun hc => hc.2⟩
  · simp [matchRoute, h1]

/-- C6.  When the match fails — differing segment counts or a literal
segment mismatch — `matchRoute` leaves the params facet untouched: bindings
are only written after the whole check loop has succeeded. -/
theorem matchRoute_failure_leaves_params (pattern path : String)
    (params : Params) (h : (matchRoute pattern path params).1 = false) :
    (matchRoute pattern path params).2 = params :=
  matchRoute_fail_snd pattern path params h

/-- Witness for C6: the spec's own example — pattern "/profile/:id" against
path "/profile" fails (segment counts 2 vs 1) and `params.id` stays unset. -/
theorem matchRoute_failure_leaves_params_witness :
    (matchRoute "/profile/:id" "/profile" []).1 = false ∧
      (matchRoute "/profile/:id" "/profile" []).2 = [] ∧
      lookupParam "id" (matchRoute "/profile/:id" "/profile" []).2 = none := by
  refine ⟨by decide, matchRoute_failure_leaves_params _ _ _ (by decide), ?_⟩
  rw [matchRoute_failure_leaves_params _ _ _ (by decide)]
  decide

/-- C9.  Duplicate-parameter policy: bindings are written left to right, one
`params[name] = pathSegments[index]` per ':'-segment, so on a successful
match the surviving binding for a name is the path segment at the rightmost
pattern position binding that name (last write wins). -/
theorem duplicate_param_last_write_wins (pattern path : String)
    (params : Params) (n : String)
    (hs : (matchRoute pattern path params).1 = true)
    (hb : bindingsOf n ((splitSegs pattern).zip (splitSegs path)) ≠ []) :
    lookupParam n (matchRoute pattern path params).2 =
      lastVal? (bindingsOf n ((splitSegs pattern).zip (splitSegs path))) := by
  rw [matchRoute_success_snd pattern path params hs]
  rw [writeParams_lookup]
  rcases ho : lastVal? (bindingsOf n ((splitSegs pattern).zip (splitSegs path)))
    with _ | v
  · exact absurd ((lastVal?_eq_none_iff _).mp ho) hb
  · simp [Option.elim]

/-- Witness for C9: pattern "/a/:x/:x" against "/a/1/2" matches and binds
`x` to "2", the segment at the rightmost `:x`. -/
theorem duplicate_param_last_write_wins_witness :
    (matchRoute "/a/:x/:x" "/a/1/2" []).1 = true ∧
      bindingsOf "x" ((splitSegs "/a/:x/:x").zip (splitSegs "/a/1/2")) ≠ [] ∧
      lookupParam "x" (matchRoute "/a/:x/:x" "/a/1/2" []).2 =
        lastVal? (bindingsOf "x"
          ((splitSegs "/a/:x/:x").zip (splitSegs "/a/1/2"))) ∧
      lookupParam "x" (matchRoute "/a/:x/:x" "/a/1/2" []).2 = some "2" := by
  refine ⟨by decide, by decide,
    duplicate_param_last_write_wins _ _ _ _ (by decide) (by decide), by decide⟩

/-! ## Renderer lemmas -/

theorem routeCheck_fail (attrs : List (String × Attr)) (st : RSt) (r : String)
    (hr : getRoute attrs = some r) (hstar : r ≠ "*")
    (hm : (matchRoute r st.path st.params).1 = false) :
    routeCheck attrs st = (false, st) := by
  have h1 : (r == "*") = false := by
    simp [hstar]
  simp only [routeCheck, hr]
  rw [h1, hm, matchRoute_fail_snd _ _ _ hm]
  simp

theorem routeCheck_none (attrs : List (String × Attr)) (st : RSt)
    (hr : getRoute attrs = none) : routeCheck attrs st = (true, st) := by
  simp [routeCheck, hr]

/-! ## Claim theorems: the renderer -/

/-- C4.  A node carrying a `route` attribute that is not "*" and does not
match the current path serializes to the non-empty placeholder comment
"<!---->" — an inert marker keeping the slot's position — rather than being
omitted, and the renderer state (in particular the params facet) is left
unchanged. -/
theorem html_route_mismatch_placeholder (defs : Defs) (fuel : Nat)
    (node : VNode) (st : RSt) (r : String)
    (hr : getRoute (vnodeAttrs node) = some r) (hstar : r ≠ "*")
    (hm : (matchRoute r st.path st.params).1 = false) :
    html defs (fuel + 1) node st = (Except.ok ("<!---->", [DNode.comment]), st)
      ∧ "<!---->" ≠ "" := by
  refine ⟨?_, by decide⟩
  cases node with
  | text s => simp [vnodeAttrs, getRoute, lookupAttr] at hr
  | int n => simp [vnodeAttrs, getRoute, lookupAttr] at hr
  | elem tag attrs children =>
      simp only [vnodeAttrs] at hr
      simp [html, routeCheck_fail attrs st r hr hstar hm]
  | comp h attrs =>
      simp only [vnodeAttrs] at hr
      simp [html, routeCheck_fail attrs st r hr hstar hm]

/-- Witness for C4: `route = "/profile/:id"` against current path
"/profile/" for an element node: the output is the placeholder, not "". -/
theorem html_route_mismatch_placeholder_witness :
    html (fun _ => noHooks) 1
        (VNode.elem "section" [("route", Attr.str "/profile/:id")] [])
        emptySt =
      (Except.ok ("<!---->", [DNode.comment]), emptySt) ∧ "<!---->" ≠ "" :=
  html_route_mismatch_placeholder (fun _ => noHooks) 0
    (VNode.elem "section" [("route", Attr.str "/profile/:id")] [])
    emptySt "/profile/:id" (by decide) (by decide) (by decide)

/-- C10.  Serializing a component node whose fingerprint was never registered
throws: `Renderer.html` destructures `this.components.get(hash)`, which is
`undefined` for an unregistered hash — so serialization of component nodes is
only safe once `setupAllComponents` has registered every reachable component
type. -/
theorem html_unregistered_component_throws (defs : Defs) (fuel : Nat)
    (h : String) (attrs : List (String × Attr)) (st : RSt)
    (hroute : getRoute attrs = none)
    (hent : lookupEntry h st.components = none) :
    html defs (fuel + 1) (VNode.comp h attrs) st =
      (Except.error RErr.typeError, st) := by
  simp [html, routeCheck_none attrs st hroute, hent]

/-- Witness for C10: a bare component node over an empty registry throws. -/
theorem html_unregistered_component_throws_witness :
    html (fun _ => noHooks) 4 (VNode.comp "orphan" []) emptySt =
      (Except.error RErr.typeError, emptySt) :=
  html_unregistered_component_throws (fun _ => noHooks) 3 "orphan" [] emptySt
    rfl rfl

/-- C2 (evidence for the code bug).  First client traversal of the spec's
hydration scenario: fingerprint "abc123", default `count = 0`, snapshot
`{ abc123: { state: { count: 5 } } }`.  The child-entry `reinitiate` stores a
different fresh instance (heap slot 2) than the one it returns (heap slot 1);
`addSnapshotStateData` writes `count = 5` into the stored slot 2, while the
returned slot 1 — the instance whose `render` output is serialized — keeps
`count = 0`, so the serialized markup shows 0. -/
theorem hydration_snapshot_misses_rendered_instance :
    ((html defsHy 3 (VNode.comp "abc123" []) stHy).1).map Prod.fst =
        Except.ok "<div data-newstack=\x22abc123\x22>0</div>" ∧
      lookupEntry "abc123"
          (html defsHy 3 (VNode.comp "abc123" []) stHy).2.components =
        some { ref := 2, kind := ReinitKind.child } ∧
      (heapInst (html defsHy 3 (VNode.comp "abc123" []) stHy).2 2).fields =
        [("count", 5)] ∧
      (heapInst (html defsHy 3 (VNode.comp "abc123" []) stHy).2 1).fields =
        [("count", 0)] :=
  ⟨rfl, rfl, rfl, rfl⟩

/-- Counterexample to C7 as stated: with a snapshot script present whose
parsed object lacks the rendered component's fingerprint, the first client
traversal throws a `TypeError` (`const { state } = states[hash]` destructures
`undefined`) instead of silently skipping. -/
theorem hydration_missing_entry_throws :
    (html defsHy 3 (VNode.comp "abc123" [])
        { stHy with snapshot := some [] }).1 =
      Except.error RErr.typeError := rfl

/-- C7 as amended.  (1) Snapshot entries for other fingerprints are ignored:
`addSnapshotStateData` depends only on the consuming component's own entry,
so an entry whose fingerprint matches no live component is never consumed.
(2) But the converse direction throws: when the rendered component's
fingerprint is absent from the snapshot, `addSnapshotStateData` raises a
`TypeError`.  (3) Only when no snapshot script is present at all does the
first traversal leave the component at its declared defaults without
error. -/
theorem hydration_snapshot_consumption :
    (∀ (defs : Defs) (h : String) (states states' : Snapshot) (st : RSt),
        lookupSnap h states = lookupSnap h states' →
        addSnapshotStateData defs h states st =
          addSnapshotStateData defs h states' st) ∧
      (∀ (defs : Defs) (h : String) (states : Snapshot) (st : RSt),
        lookupSnap h states = none →
        addSnapshotStateData defs h states st = Except.error RErr.typeError) ∧
      ((html defsHy 3 (VNode.comp "abc123" [])
          { stHy with snapshot := none }).1).map Prod.fst =
        Except.ok "<div data-newstack=\x22abc123\x22>0</div>" := by
  refine ⟨?_, ?_, rfl⟩
  · intro defs h states states' st heq
    simp only [addSnapshotStateData, heq]
  · intro defs h states st hnone
    simp only [addSnapshotStateData, hnone]

/-- Witness for C7 (amended): an extra snapshot entry for an absent
fingerprint "zzz" changes nothing, and an empty snapshot object makes the
consumption throw. -/
theorem hydration_snapshot_consumption_witness :
    addSnapshotStateData defsHy "abc123"
        [("abc123", [("count", 5)]), ("zzz", [])] stHy =
      addSnapshotStateData defsHy "abc123" [("abc123", [("count", 5)])] stHy ∧
      addSnapshotStateData defsHy "abc123" [] stHy =
        Except.error RErr.typeError :=
  ⟨hydration_snapshot_consumption.1 defsHy "abc123" _ _ stHy rfl,
    hydration_snapshot_consumption.2.1 defsHy "abc123" [] stHy rfl⟩

/-! ## Lifecycle ordering lemmas -/

theorem routeCheck_frame (attrs : List (String × Attr)) (st : RSt) :
    (routeCheck attrs st).2.environment = st.environment ∧
      (routeCheck attrs st).2.trace = st.trace := by
  rcases hga : getRoute attrs with _ | r <;> simp [routeCheck, hga]

theorem addVisible_frame (h : String) (st : RSt) :
    (addVisible h st).environment = st.environment ∧
      (addVisible h st).trace = st.trace := by
  by_cases hm : h ∈ st.visibleHashes <;> simp [addVisible, hm]

theorem runChildren_server
    (f : VNode → RSt → (Except RErr (String × List DNode)) × RSt)
    (hf : ∀ c st, st.environment = Env.server →
      (f c st).2.environment = Env.server ∧
      ∃ evs, (f c st).2.trace = st.trace ++ evs ∧
        ∀ e ∈ evs, isRenderEv e = true) :
    ∀ (cs : List VNode) (st : RSt), st.environment = Env.server →
      (runChildren f cs st).2.environment = Env.server ∧
      ∃ evs, (runChildren f cs st).2.trace = st.trace ++ evs ∧
        ∀ e ∈ evs, isRenderEv e = true := by
  intro cs
  induction cs with
  | nil =>
    intro st hst
    exact ⟨hst, ⟨[], by simp [runChildren], by simp⟩⟩
  | cons c cs ih =>
    intro st hst
    obtain ⟨henv1, evs1, htr1, hren1⟩ := hf c st hst
    rcases hfc : f c st with ⟨r, st1⟩
    simp only [hfc] at henv1 htr1
    cases r with
    | error e =>
      refine ⟨by simp [runChildren, hfc, henv1], evs1, ?_, hren1⟩
      simp [runChildren, hfc, htr1]
    | ok p =>
      obtain ⟨s1, ns1⟩ := p
      obtain ⟨henv2, evs2, htr2, hren2⟩ := ih st1 henv1
      rcases hrc : runChildren f cs st1 with ⟨r2, st2⟩
      simp only [hrc] at henv2 htr2
      have hmem : ∀ e ∈ evs1 ++ evs2, isRenderEv e = true := by
        intro e he
        rcases List.mem_append.mp he with hh | hh
        exacts [hren1 e hh, hren2 e hh]
      cases r2 with
      | error e =>
        refine ⟨by simp [runChildren, hfc, hrc, henv2], evs1 ++ evs2, ?_, hmem⟩
        simp [runChildren, hfc, hrc, htr2, htr1]
      | ok p2 =>
        obtain ⟨s2, ns2⟩ := p2
        refine ⟨by simp [runChildren, hfc, hrc, henv2], evs1 ++ evs2, ?_, hmem⟩
        simp [runChildren, hfc, hrc, htr2, htr1]

/-- On the server, a whole `html` traversal only ever appends `render` events
to the trace (no prepare runs inside it) and stays in the server
environment. -/
theorem html_server (defs : Defs) :
    ∀ (fuel : Nat) (v : VNode) (st : RSt), st.environment = Env.server →
      (html defs fuel v st).2.environment = Env.server ∧
      ∃ evs, (html defs fuel v st).2.trace = st.trace ++ evs ∧
        ∀ e ∈ evs, isRenderEv e = true := by
  intro fuel
  induction fuel with
  | zero =>
    intro v st hst
    exact ⟨hst, ⟨[], by simp [html], by simp⟩⟩
  | succ fuel ih =>
    intro v st hst
    cases v with
    | text s => exact ⟨hst, ⟨[], by simp [html], by simp⟩⟩
    | int n => exact ⟨hst, ⟨[], by simp [html], by simp⟩⟩
    | elem tag attrs children =>
      rcases hrc : routeCheck attrs st with ⟨go, st1⟩
      have hfr := routeCheck_frame attrs st
      simp only [hrc] at hfr
      have henv1 : st1.environment = Env.server := by rw [hfr.1, hst]
      cases go with
      | false =>
        refine ⟨by simp [html, hrc, henv1], [], ?_, by simp⟩
        simp [html, hrc, hfr.2]
      | true =>
        obtain ⟨henv2, evs, htr, hren⟩ :=
          runChildren_server (fun c st' => html defs fuel c st')
            (fun c st' hst' => ih c st' hst') children st1 henv1
        rcases hrun : runChildren (fun c st' => html defs fuel c st')
            children st1 with ⟨r, st2⟩
        simp only [hrun] at henv2 htr
        cases r with
        | error e =>
          refine ⟨by simp [html, hrc, hrun, henv2], evs, ?_, hren⟩
          simp [html, hrc, hrun, htr, hfr.2]
        | ok p =>
          obtain ⟨s1, ns1⟩ := p
          refine ⟨by simp [html, hrc, hrun, henv2], evs, ?_, hren⟩
          simp [html, hrc, hrun, htr, hfr.2]
    | comp h attrs =>
      rcases hrc : routeCheck attrs st with ⟨go, st1⟩
      have hfr := routeCheck_frame attrs st
      simp only [hrc] at hfr
      have henv1 : st1.environment = Env.server := by rw [hfr.1, hst]
      cases go with
      | false =>
        refine ⟨by simp [html, hrc, henv1], [], ?_, by simp⟩
        simp [html, hrc, hfr.2]
      | true =>
        rcases hent : lookupEntry h st1.components with _ | e
        · refine ⟨by simp [html, hrc, hent, henv1], [], ?_, by simp⟩
          simp [html, hrc, hent, hfr.2]
        · have hnotc : ¬ st1.environment = Env.client := by
            rw [henv1]
            intro hcon
            exact Env.noConfusion hcon
          have hav := addVisible_frame h st1
          have henvA : (addVisible h st1).environment = Env.server := by
            rw [hav.1, henv1]
          have henvP : (pushTrace (TEvent.renderEv h)
              (addVisible h st1)).environment = Env.server := henvA
          have hstep : html defs (fuel + 1) (VNode.comp h attrs) st =
              html defs fuel
                ((defs h).render (heapInst (addVisible h st1) e.ref).fields
                  (ctxOf (addVisible h st1)))
                (pushTrace (TEvent.renderEv h) (addVisible h st1)) := by
            simp only [html, hrc, hent, hnotc]
            simp [hnotc, henv1, henvP]
          rw [hstep]
          obtain ⟨henv3, evs, htr, hren⟩ :=
            ih ((defs h).render (heapInst (addVisible h st1) e.ref).fields
                (ctxOf (addVisible h st1)))
              (pushTrace (TEvent.renderEv h) (addVisible h st1)) henvP
          refine ⟨henv3, TEvent.renderEv h :: evs, ?_, ?_⟩
          · rw [htr]
            simp [pushTrace, hav.2, hfr.2]
          · intro e he
            rcases List.mem_cons.mp he with hh | hh
            · rw [hh]; rfl
            · exact hren e hh

theorem renderBeforePrepare_renders (t : List TEvent) :
    (∀ e ∈ t, isRenderEv e = true) →
    ∀ (seen : List String) (rest : List TEvent),
      ∃ seen', renderBeforePrepare (t ++ rest) seen =
        renderBeforePrepare rest seen' ∧ ∀ x ∈ seen, x ∈ seen' := by
  induction t with
  | nil =>
    intro _ seen rest
    exact ⟨seen, rfl, fun x hx => hx⟩
  | cons e t ih =>
    intro h seen rest
    have he := h e (by simp)
    cases e with
    | renderEv hh =>
      obtain ⟨seen', heq, hsub⟩ :=
        ih (fun e' he' => h e' (by simp [he'])) (hh :: seen) rest
      exact ⟨seen', heq, fun x hx => hsub x (by simp [hx])⟩
    | prepareEv hh => simp [isRenderEv] at he
    | hydrateEv hh => simp [isRenderEv] at he
    | destroyEv hh => simp [isRenderEv] at he
    | updateEv hh => simp [isRenderEv] at he
    | patchEv rr => simp [isRenderEv] at he

theorem renderBeforePrepare_of_renders (t : List TEvent)
    (h : ∀ e ∈ t, isRenderEv e = true) (seen : List String) :
    renderBeforePrepare t seen = true := by
  obtain ⟨seen', heq, _⟩ := renderBeforePrepare_renders t h seen []
  rw [List.append_nil] at heq
  rw [heq]
  rfl

/-! ## Claim theorems: lifecycle ordering -/

/-- Counterexample to C1 as stated.  On the server request path the app's
`render` (and the whole `Renderer.html` traversal) runs before `prepare` is
awaited; on the client `setupAllComponents` and `renderRoute` call every
component's `render` before `startComponents` calls its `prepare`.  At these
concrete inputs the trace violates "every render is preceded by that
component's completed prepare" in both paths. -/
theorem prepare_order_claim_false :
    prepareBeforeRender (template defsApp "app" [] 9 emptySt).2.trace []
        = false ∧
      prepareBeforeRender (start defsLife "app" [] 9 stClient).2.trace []
        = false :=
  ⟨rfl, rfl⟩

/-- C1 as amended.  The order is the reverse of the spec's: a component's
`render` is invoked before its `prepare`.  On the server this holds for every
request (`template` renders the whole tree, then awaits the visible
components' `prepare`); on the client bootstrap it holds per component in the
modelled start trace (renders during `setupAllComponents` and the route
render precede the `prepare` calls issued by `startComponents`). -/
theorem render_precedes_prepare :
    (∀ (defs : Defs) (appHash : String) (appFields : List (String × Int))
        (fuel : Nat) (st : RSt),
        st.environment = Env.server → st.trace = [] →
        renderBeforePrepare
          (template defs appHash appFields fuel st).2.trace [] = true) ∧
      renderBeforePrepare (start defsLife "app" [] 9 stClient).2.trace []
        = true := by
  constructor
  · intro defs appHash appFields fuel st henv htr
    have henv1 : (pushTrace (TEvent.renderEv appHash) st).environment
        = Env.server := henv
    obtain ⟨henv2, evs, htr2, hren⟩ :=
      html_server defs fuel ((defs appHash).render appFields (ctxOf st))
        (pushTrace (TEvent.renderEv appHash) st) henv1
    rcases hh : html defs fuel ((defs appHash).render appFields (ctxOf st))
        (pushTrace (TEvent.renderEv appHash) st) with ⟨r, st2⟩
    simp only [hh] at henv2 htr2
    have htr1 : (pushTrace (TEvent.renderEv appHash) st).trace
        = [TEvent.renderEv appHash] := by
      simp [pushTrace, htr]
    rw [htr1] at htr2
    cases r with
    | error e =>
      have hres : (template defs appHash appFields fuel st).2 = st2 := by
        simp [template, hh]
      rw [hres, htr2]
      refine renderBeforePrepare_of_renders _ ?_ []
      intro e' he'
      rcases List.mem_cons.mp he' with hh' | hh'
      · rw [hh']; rfl
      · exact hren e' hh'
    | ok p =>
      obtain ⟨page, ns⟩ := p
      by_cases hp : (defs appHash).hasPrepare = true
      · have hres : (template defs appHash appFields fuel st).2 =
            pushTrace (TEvent.prepareEv appHash) st2 := by
          simp [template, hh, hp]
        rw [hres]
        have htr3 : (pushTrace (TEvent.prepareEv appHash) st2).trace =
            TEvent.renderEv appHash ::
              (evs ++ [TEvent.prepareEv appHash]) := by
          simp [pushTrace, htr2]
        rw [htr3]
        show renderBeforePrepare (evs ++ [TEvent.prepareEv appHash])
          [appHash] = true
        obtain ⟨seen', heq, hsub⟩ :=
          renderBeforePrepare_renders evs hren [appHash]
            [TEvent.prepareEv appHash]
        rw [heq]
        have hmem : appHash ∈ seen' := hsub appHash (by simp)
        show (seen'.contains appHash && renderBeforePrepare [] seen') = true
        have hc : seen'.contains appHash = true := List.elem_eq_true_of_mem hmem
        rw [hc]
        rfl
      · have hp' : (defs appHash).hasPrepare = false := by
          simpa using hp
        have hres : (template defs appHash appFields fuel st).2 = st2 := by
          simp [template, hh, hp']
        rw [hres, htr2]
        refine renderBeforePrepare_of_renders _ ?_ []
        intro e' he'
        rcases List.mem_cons.mp he' with hh' | hh'
        · rw [hh']; rfl
        · exact hren e' hh'
  · rfl

/-- Witness for C1 (amended): the server half applied at a concrete request —
the app with a `prepare` hook renders first, then prepares. -/
theorem render_precedes_prepare_witness :
    renderBeforePrepare (template defsApp "app" [] 9 emptySt).2.trace []
      = true :=
  render_precedes_prepare.1 defsApp "app" [] 9 emptySt rfl rfl

/-! ## Reactivity lemmas -/

theorem lookupField_setField_self (k : String) (v : Int)
    (f : List (String × Int)) : lookupField k (setField k v f) = some v := by
  induction f with
  | nil => simp [setField, lookupField]
  | cons kv rest ih =>
    obtain ⟨k', w⟩ := kv
    by_cases hk : k' = k
    · simp [setField, lookupField, hk]
    · simp [setField, lookupField, hk, ih]

theorem heapInst_heapSetField_self (r : Nat) (k : String) (v : Int) (st : RSt)
    (h : r < st.heap.length) :
    heapInst (heapSetField r k v st) r =
      { hash := (heapInst st r).hash
        fields := setField k v (heapInst st r).fields } := by
  show (st.heap.set r _).getD r _ = _
  rw [List.getD_eq_getElem?_getD, List.getElem?_set_self (by simpa using h)]
  rfl

/-- C5.  A field write through the component proxy: the value is stored on the
underlying instance first, then `updateComponent` re-renders that one
component and issues exactly one `patchElement` call, targeting that
component's own mounted element, and then the declared `update` hook runs —
all before the write returns, with no other element patched.  The hypotheses
say the component is mounted (`componentElements` knows its element), its
re-render `vr` is a self-contained traversal (`html` evaluates it without
touching renderer state) whose markup parses to an element, and the patch has
enough fuel. -/
theorem proxySet_single_patch (defs : Defs) (fuel : Nat) (r : Nat)
    (key : String) (value : Int) (st : RSt) (h : String) (cref : Nat)
    (vr : VNode) (ms : String) (ns : List DNode) (newEl : DNode)
    (pr : DNode × List DomOp)
    (henv : st.environment = Env.client)
    (hlen : r < st.heap.length)
    (hhash : (heapInst st r).hash = h)
    (hce : lookupElemRef h st.componentElements = some cref)
    (hupd : (defs h).hasUpdate = true)
    (hvr : (defs h).render (setField key value (heapInst st r).fields)
      (ctxOf st) = vr)
    (hrender : ∀ s : RSt, html defs fuel vr s = (Except.ok (ms, ns), s))
    (hfe : firstElem (normDom ns) = some newEl)
    (hpatch : patchElement fuel
      (st.domHeap.getD cref (DNode.elem "div" [] [])) newEl (some vr)
      = some pr) :
    proxySet defs fuel r key value st =
      (Except.ok (),
        pushTrace (TEvent.updateEv h) (pushTrace (TEvent.patchEv cref)
          { pushTrace (TEvent.renderEv h) (heapSetField r key value st) with
            domHeap := st.domHeap.set cref pr.1 })) ∧
      (proxySet defs fuel r key value st).2.trace =
        st.trace ++
          [TEvent.renderEv h, TEvent.patchEv cref, TEvent.updateEv h] ∧
      lookupField key
        (heapInst (proxySet defs fuel r key value st).2 r).fields
        = some value := by
  obtain ⟨patched, ops⟩ := pr
  have hinst1 : heapInst (heapSetField r key value st) r =
      { hash := h, fields := setField key value (heapInst st r).fields } := by
    rw [heapInst_heapSetField_self r key value st hlen, hhash]
  have hnots : ¬ ((heapSetField r key value st).environment = Env.server) := by
    show ¬ (st.environment = Env.server)
    rw [henv]
    intro hcon
    exact Env.noConfusion hcon
  have hupdc : updateComponent defs fuel r (heapSetField r key value st) =
      (Except.ok (),
        pushTrace (TEvent.patchEv cref)
          { pushTrace (TEvent.renderEv h) (heapSetField r key value st) with
            domHeap := st.domHeap.set cref patched }) := by
    simp only [updateComponent, if_neg hnots, hinst1]
    have hce1 : lookupElemRef h
        (heapSetField r key value st).componentElements = some cref := hce
    rw [hce1]
    have hvr1 : (defs h).render (setField key value (heapInst st r).fields)
        (ctxOf (heapSetField r key value st)) = vr := hvr
    rw [hvr1]
    rw [hrender (pushTrace (TEvent.renderEv h) (heapSetField r key value st))]
    simp only [hfe]
    have hpatch1 : patchElement fuel
        ((pushTrace (TEvent.renderEv h)
          (heapSetField r key value st)).domHeap.getD cref
            (DNode.elem "div" [] []))
        newEl (some vr) = some (patched, ops) := hpatch
    rw [hpatch1]
    rfl
  have hmain : proxySet defs fuel r key value st =
      (Except.ok (),
        pushTrace (TEvent.updateEv h) (pushTrace (TEvent.patchEv cref)
          { pushTrace (TEvent.renderEv h) (heapSetField r key value st) with
            domHeap := st.domHeap.set cref patched })) := by
    simp only [proxySet, hupdc]
    have hhash2 : (heapInst (pushTrace (TEvent.patchEv cref)
        { pushTrace (TEvent.renderEv h) (heapSetField r key value st) with
          domHeap := st.domHeap.set cref patched }) r).hash = h := by
      show (heapInst (heapSetField r key value st) r).hash = h
      rw [hinst1]
    rw [hhash2, hupd]
    simp
  refine ⟨hmain, ?_, ?_⟩
  · rw [hmain]
    simp [pushTrace, heapSetField]
  · rw [hmain]
    have : heapInst (pushTrace (TEvent.updateEv h) (pushTrace
        (TEvent.patchEv cref)
        { pushTrace (TEvent.renderEv h) (heapSetField r key value st) with
          domHeap := st.domHeap.set cref patched })) r =
        heapInst (heapSetField r key value st) r := rfl
    rw [this, hinst1]
    exact lookupField_setField_self key value (heapInst st r).fields

/-- Witness for C5: writing `count = 7` on the hydrated counter component
yields exactly the trace render-patch-update with the single patch on the
counter's own element, and the instance carries the stored value. -/
theorem proxySet_single_patch_witness :
    (proxySet defsCnt 5 0 "count" 7 stCnt).1 = Except.ok () ∧
      (proxySet defsCnt 5 0 "count" 7 stCnt).2.trace =
        stCnt.trace ++
          [TEvent.renderEv "cnt", TEvent.patchEv 0, TEvent.updateEv "cnt"] ∧
      lookupField "count"
        (heapInst (proxySet defsCnt 5 0 "count" 7 stCnt).2 0).fields
        = some 7 := by
  have hmain := proxySet_single_patch defsCnt 5 0 "count" 7 stCnt "cnt" 0
    (VNode.elem "div" [] [VNode.int 7]) "<div>7</div>"
    [DNode.elem "div" [] [DNode.text "7"]]
    (DNode.elem "div" [] [DNode.text "7"])
    (DNode.elem "div" [] [DNode.text "7"], [DomOp.setText [0] "7"])
    rfl (by decide) rfl rfl rfl rfl (fun s => rfl) rfl rfl
  exact ⟨by rw [hmain.1], hmain.2.1, hmain.2.2⟩

/-! ## Patch-minimality lemmas -/

theorem opPath_shiftOp (i : Nat) (op : DomOp) :
    opPath (shiftOp i op) = i :: opPath op := by
  cases op <;> rfl

theorem lookupStr_eq_of_mem_nodup (name w : String)
    (l : List (String × String)) (hnd : (l.map Prod.fst).Nodup)
    (hm : (name, w) ∈ l) : lookupStr name l = some w := by
  induction l with
  | nil => simp at hm
  | cons kv rest ih =>
    obtain ⟨k, v⟩ := kv
    simp only [List.map_cons, List.nodup_cons] at hnd
    rcases List.mem_cons.mp hm with he | hm'
    · injection he with h1 h2
      simp only [lookupStr]
      rw [if_pos h1.symm, h2]
    · by_cases hk : k = name
      · exfalso
        apply hnd.1
        rw [hk]
        exact List.mem_map.mpr ⟨(name, w), hm', rfl⟩
      · simp only [lookupStr, if_neg hk]
        exact ih hnd.2 hm'

theorem appendOps_paths (news : List DNode) :
    ∀ (i : Nat), ∀ op ∈ (appendOps i news).2, opPath op ≠ [] := by
  induction news with
  | nil => intro i op hop; simp [appendOps] at hop
  | cons n ns ih =>
    intro i op hop
    simp only [appendOps] at hop
    rcases List.mem_cons.mp hop with he | hm
    · rw [he]; simp [opPath]
    · exact ih (i + 1) op hm

theorem removeOps_paths (olds : List DNode) :
    ∀ (i : Nat), ∀ op ∈ removeOps i olds, opPath op ≠ [] := by
  induction olds with
  | nil => intro i op hop; simp [removeOps] at hop
  | cons o os ih =>
    intro i op hop
    simp only [removeOps] at hop
    rcases List.mem_cons.mp hop with he | hm
    · rw [he]; simp [opPath]
    · exact ih (i + 1) op hm

theorem patchPairF_paths
    (f : DNode → DNode → Option VNode → Option (DNode × List DomOp))
    (i : Nat) (o n : DNode) (v : Option VNode) (res : DNode × List DomOp)
    (h : patchPairF f i o n v = some res) :
    ∀ op ∈ res.2, opPath op ≠ [] := by
  obtain ⟨res1, res2⟩ := res
  intro op hop
  cases o with
  | text s =>
    cases n with
    | text t =>
      by_cases hst : s = t
      · simp [patchPairF, nodeType, hst] at h
        obtain ⟨h1, h2⟩ := h
        subst h2
        simp at hop
      · simp [patchPairF, nodeType, hst] at h
        obtain ⟨h1, h2⟩ := h
        subst h2
        simp only [List.mem_singleton] at hop
        rw [hop]
        simp [opPath]
    | elem ntag na nc =>
      simp [patchPairF, nodeType] at h
      obtain ⟨h1, h2⟩ := h
      subst h2
      simp only [List.mem_singleton] at hop
      rw [hop]
      simp [opPath]
    | comment =>
      simp [patchPairF, nodeType] at h
      obtain ⟨h1, h2⟩ := h
      subst h2
      simp only [List.mem_singleton] at hop
      rw [hop]
      simp [opPath]
  | elem otag oa oc =>
    cases n with
    | text t =>
      simp [patchPairF, nodeType] at h
      obtain ⟨h1, h2⟩ := h
      subst h2
      simp only [List.mem_singleton] at hop
      rw [hop]
      simp [opPath]
    | elem ntag na nc =>
      by_cases htag : otag = ntag
      · subst htag
        rcases hf : f (DNode.elem otag oa oc) (DNode.elem otag na nc) v
            with _ | r
        · simp [patchPairF, nodeType, hf] at h
        · obtain ⟨r1, r2⟩ := r
          simp [patchPairF, nodeType, hf] at h
          obtain ⟨h1, h2⟩ := h
          subst h2
          simp only [List.mem_map] at hop
          obtain ⟨op', _, hop'⟩ := hop
          rw [← hop', opPath_shiftOp]
          simp
      · simp [patchPairF, nodeType, htag] at h
        obtain ⟨h1, h2⟩ := h
        subst h2
        simp only [List.mem_singleton] at hop
        rw [hop]
        simp [opPath]
    | comment =>
      simp [patchPairF, nodeType] at h
      obtain ⟨h1, h2⟩ := h
      subst h2
      simp only [List.mem_singleton] at hop
      rw [hop]
      simp [opPath]
  | comment =>
    cases n with
    | text t =>
      simp [patchPairF, nodeType] at h
      obtain ⟨h1, h2⟩ := h
      subst h2
      simp only [List.mem_singleton] at hop
      rw [hop]
      simp [opPath]
    | elem ntag na nc =>
      simp [patchPairF, nodeType] at h
      obtain ⟨h1, h2⟩ := h
      subst h2
      simp only [List.mem_singleton] at hop
      rw [hop]
      simp [opPath]
    | comment =>
      simp [patchPairF, nodeType] at h
      obtain ⟨h1, h2⟩ := h
      subst h2
      simp only [List.mem_singleton] at hop
      rw [hop]
      simp [opPath]

theorem patchKidsF_paths
    (f : DNode → DNode → Option VNode → Option (DNode × List DomOp)) :
    ∀ (olds : List DNode) (i : Nat) (news : List DNode)
      (vs : List (Option VNode)) (res : List DNode × List DomOp),
      patchKidsF f i olds news vs = some res →
      ∀ op ∈ res.2, opPath op ≠ [] := by
  intro olds
  induction olds with
  | nil =>
    intro i news vs res h op hop
    simp only [patchKidsF, Option.some.injEq] at h
    rw [← h] at hop
    exact appendOps_paths news i op hop
  | cons o os ih =>
    intro i news vs res h op hop
    cases news with
    | nil =>
      simp only [patchKidsF, Option.some.injEq] at h
      rw [← h] at hop
      exact removeOps_paths (o :: os) i op hop
    | cons n ns =>
      simp only [patchKidsF] at h
      rcases hp : patchPairF f i o n (vs.headD none) with _ | dops
      · rw [hp] at h
        exact Option.noConfusion h
      · rw [hp] at h
        obtain ⟨d, ops1⟩ := dops
        rcases hk : patchKidsF f (i + 1) os ns vs.tail with _ | dsops
        · rw [hk] at h
          exact Option.noConfusion h
        · rw [hk] at h
          obtain ⟨ds, ops2⟩ := dsops
          simp only [Option.some.injEq] at h
          rw [← h] at hop
          rcases List.mem_append.mp hop with hm | hm
          · exact patchPairF_paths f i o n (vs.headD none) (d, ops1) hp op hm
          · exact ih (i + 1) ns vs.tail (ds, ops2) hk op hm

/-! ## Claim theorem: patch minimality -/

/-- C8.  Patch minimality: (1) an attribute present with the same value on
both the old and the new element receives no DOM write at the patched element
— no `setAttribute`, no `removeAttribute` (attribute names are unique on a
DOM element, hence the `Nodup` hypothesis); (2) a pair of text children with
equal content is left untouched — text is rewritten only on difference; (3)
the spec's example: patching `<div a="1"><span>x</span></div>` against
`<div a="1"><span>y</span></div>` issues exactly one write, the span's text. -/
theorem patch_minimality :
    (∀ (fuel : Nat) (otag : String) (oattrs : List (String × String))
        (ochildren : List DNode) (ntag : String)
        (nattrs : List (String × String)) (nchildren : List DNode)
        (v : Option VNode) (name val : String) (res : DNode × List DomOp),
        patchElement (fuel + 1) (DNode.elem otag oattrs ochildren)
          (DNode.elem ntag nattrs nchildren) v = some res →
        lookupStr name oattrs = some val →
        lookupStr name nattrs = some val →
        (nattrs.map Prod.fst).Nodup →
        (∀ w, DomOp.setAttr [] name w ∉ res.2) ∧
          DomOp.removeAttr [] name ∉ res.2) ∧
      (∀ (f : DNode → DNode → Option VNode → Option (DNode × List DomOp))
        (i : Nat) (s : String) (v : Option VNode),
        patchPairF f i (DNode.text s) (DNode.text s) v =
          some (DNode.text s, [])) ∧
      patchElement 2
        (DNode.elem "div" [("a", "1")]
          [DNode.elem "span" [] [DNode.text "x"]])
        (DNode.elem "div" [("a", "1")]
          [DNode.elem "span" [] [DNode.text "y"]]) none =
        some (DNode.elem "div" [("a", "1")]
          [DNode.elem "span" [] [DNode.text "y"]],
          [DomOp.setText [0, 0] "y"]) := by
  refine ⟨?_, ?_, rfl⟩
  · intro fuel otag oattrs ochildren ntag nattrs nchildren v name val res
      hp hlo hln hnd
    rcases hk : patchKidsF (fun o' n' vv => patchElement fuel o' n' vv) 0
        ochildren nchildren (vnodeKids v) with _ | kres
    · simp only [patchElement, hk] at hp
      exact Option.noConfusion hp
    · obtain ⟨kids, kidOps⟩ := kres
      obtain ⟨resd, reso⟩ := res
      simp only [patchElement, hk, Option.some.injEq, Prod.mk.injEq] at hp
      obtain ⟨hp1, hp2⟩ := hp
      subst hp2
      constructor
      · intro w hw
        simp only [List.mem_append] at hw
        rcases hw with ((hm | hm) | hm) | hm
        · obtain ⟨kv, _, heq⟩ := List.mem_map.mp hm
          exact DomOp.noConfusion heq
        · obtain ⟨kv, hkv, heq⟩ := List.mem_map.mp hm
          obtain ⟨kvk, kvv⟩ := kv
          obtain ⟨hkvm, hkvf⟩ := List.mem_filter.mp hkv
          injection heq with _ hname hval
          apply of_decide_eq_true at hkvf
          apply hkvf
          have hmem : (name, kvv) ∈ nattrs := by rw [← hname]; exact hkvm
          have hlnn := lookupStr_eq_of_mem_nodup name kvv nattrs hnd hmem
          rw [hlnn] at hln
          injection hln with hvv
          show lookupStr kvk oattrs = some kvv
          have hname' : kvk = name := hname
          rw [hname', hvv, hlo]
        · cases v with
          | some vv =>
            obtain ⟨kv, _, heq⟩ := List.mem_map.mp hm
            exact DomOp.noConfusion heq
          | none => simp at hm
        · have := patchKidsF_paths
            (fun o' n' vv => patchElement fuel o' n' vv) ochildren 0
            nchildren (vnodeKids v) (kids, kidOps) hk
            (DomOp.setAttr [] name w) hm
          exact absurd (rfl : opPath (DomOp.setAttr [] name w) = []) this
      · intro hw
        simp only [List.mem_append] at hw
        rcases hw with ((hm | hm) | hm) | hm
        · obtain ⟨kv, hkv, heq⟩ := List.mem_map.mp hm
          obtain ⟨kvk, kvv⟩ := kv
          obtain ⟨hkvm, hkvf⟩ := List.mem_filter.mp hkv
          injection heq with _ hname
          rw [hname] at hkvf
          rw [hln] at hkvf
          simp at hkvf
        · obtain ⟨kv, _, heq⟩ := List.mem_map.mp hm
          exact DomOp.noConfusion heq
        · cases v with
          | some vv =>
            obtain ⟨kv, _, heq⟩ := List.mem_map.mp hm
            exact DomOp.noConfusion heq
          | none => simp at hm
        · have := patchKidsF_paths
            (fun o' n' vv => patchElement fuel o' n' vv) ochildren 0
            nchildren (vnodeKids v) (kids, kidOps) hk
            (DomOp.removeAttr [] name) hm
          exact absurd (rfl : opPath (DomOp.removeAttr [] name) = []) this
  · intro f i s v
    simp [patchPairF, nodeType]

/-- Witness for C8: at the worked example, the unchanged attribute "a" gets
neither a set nor a removal, and an equal text pair produces no write. -/
theorem patch_minimality_witness :
    DomOp.setAttr [] "a" "2" ∉ [DomOp.setText [0, 0] "y"] ∧
      DomOp.removeAttr [] "a" ∉ [DomOp.setText [0, 0] "y"] ∧
      patchPairF (fun _ _ _ => none) 0 (DNode.text "x") (DNode.text "x")
        none = some (DNode.text "x", []) := by
  have ha := (patch_minimality.1 1 "div" [("a", "1")]
    [DNode.elem "span" [] [DNode.text "x"]] "div" [("a", "1")]
    [DNode.elem "span" [] [DNode.text "y"]] none "a" "1"
    (DNode.elem "div" [("a", "1")] [DNode.elem "span" [] [DNode.text "y"]],
      [DomOp.setText [0, 0] "y"])
    patch_minimality.2.2 rfl rfl (by decide))
  exact ⟨ha.1 "2", ha.2, patch_minimality.2.1 (fun _ _ _ => none) 0 "x" none⟩

end Newstack
